import Mathlib

/-!
Shallow embedding of `src/cpu.py`, an LS-8 style 8-bit CPU emulator.

Modelling conventions:
* Python unbounded non-negative integers become `Nat` (every value that ever
  reaches a register or a RAM cell in this program is non-negative: loaded
  bytes, `LDI` immediates, sums/products of non-negatives, and `pc + 2`).
* The stack pointer can become negative through repeated pushes, so `sp : Int`.
* Python list subscripts follow Python semantics: a non-negative index in
  range selects that cell, a negative index `i` with `-len ≤ i` selects cell
  `i + len`, and anything else raises `IndexError`.  Fallible operations
  return `Option` / `Except Err`; `Err.indexError` models an uncaught Python
  `IndexError`, `Err.unsupportedALU` models the `Exception` raised by `alu`.
* Standard output is accumulated in `State.output` as the list of printed
  register values (each `print` call in the source emits one decimal integer
  followed by a newline).
-/

set_option maxRecDepth 16000

namespace CPU

/-- Opcode constants, exactly as defined at the top of `cpu.py`. -/
def HLT : Nat := 0b00000001
def PRN : Nat := 0b01000111
def LDI : Nat := 0b10000010
def MUL : Nat := 0b10100010
def ADD : Nat := 0b10100000
def PUSH : Nat := 0b01000101
def POP : Nat := 0b01000110
def CALL : Nat := 0b01010000
def IRET : Nat := 0b00010011
def RET : Nat := 0b00010001
def CMP : Nat := 0b10100111
def JMP : Nat := 0b01010100
def JEQ : Nat := 0b01010101
def JNE : Nat := 0b01010110

/-- Runtime errors: an uncaught Python `IndexError` from a list subscript, or
the `Exception("Unsupported ALU operation")` raised by `CPU.alu`. -/
inductive Err where
  | indexError : Err
  | unsupportedALU : Err
  deriving DecidableEq, Repr

/-- The mutable state of a `CPU` instance: `ram`, `reg`, `pc`, `fl`, `sp`
from `CPU.__init__`, plus the accumulated standard output and the local
`running` flag of `CPU.run`. -/
structure State where
  ram : List Nat
  reg : List Nat
  pc : Nat
  fl : Nat
  sp : Int
  output : List Nat
  running : Bool
  deriving DecidableEq, Repr

/-- Python list read `l[i]` for an integer index: non-negative indices must be
in range, negative indices wrap once from the end, anything else is an
`IndexError` (`none`). -/
def pyGet (l : List Nat) (i : Int) : Option Nat :=
  if 0 ≤ i then l[i.toNat]?
  else if 0 ≤ i + l.length then l[(i + l.length).toNat]?
  else none

/-- Python list write `l[i] = v` for an integer index, same index semantics
as `pyGet`. -/
def pySet (l : List Nat) (i : Int) (v : Nat) : Option (List Nat) :=
  if 0 ≤ i then
    if i.toNat < l.length then some (l.set i.toNat v) else none
  else if 0 ≤ i + l.length then some (l.set (i + l.length).toNat v)
  else none

/-- Python list write `l[i] = v` for a `Nat` index (register writes: operand
bytes are always non-negative). -/
def regSet (l : List Nat) (i : Nat) (v : Nat) : Option (List Nat) :=
  if i < l.length then some (l.set i v) else none

/-- `CPU.ram_read(MAR)`: returns `self.ram[MAR]`. -/
def ram_read (s : State) (MAR : Int) : Option Nat :=
  pyGet s.ram MAR

/-- `CPU.ram_write(MAR, MDR)`: performs `self.ram[MAR] = MDR`, giving the
updated state. -/
def ram_write (s : State) (MAR : Int) (MDR : Nat) : Option State :=
  match pySet s.ram MAR MDR with
  | some ram' => some { s with ram := ram' }
  | none => none

/-- `CPU.alu(op, reg_a, reg_b)`: ADD and MUL store the unbounded sum/product
into `reg[reg_a]`; CMP fully replaces `fl` with `0b001` / `0b100` / `0b010`;
any other op raises. Register subscripts out of range raise `IndexError`. -/
def alu (s : State) (op reg_a reg_b : Nat) : Except Err State :=
  if op = ADD then
    match s.reg[reg_a]?, s.reg[reg_b]? with
    | some va, some vb => .ok { s with reg := s.reg.set reg_a (va + vb) }
    | _, _ => .error .indexError
  else if op = MUL then
    match s.reg[reg_a]?, s.reg[reg_b]? with
    | some va, some vb => .ok { s with reg := s.reg.set reg_a (va * vb) }
    | _, _ => .error .indexError
  else if op = CMP then
    match s.reg[reg_a]?, s.reg[reg_b]? with
    | some va, some vb =>
      if va = vb then .ok { s with fl := 0b00000001 }
      else if va < vb then .ok { s with fl := 0b00000100 }
      else if vb < va then .ok { s with fl := 0b00000010 }
      else .ok s
    | _, _ => .error .indexError
  else .error .unsupportedALU

/-- One iteration of the `while running` loop in `CPU.run`: fetch `IR`,
`operand_a`, `operand_b` (all three reads happen unconditionally in the
source), then dispatch along the `if`/`elif` chain.  An opcode matching no
branch leaves the state unchanged (the chain has no `else`). -/
def step (s : State) : Except Err State :=
  match ram_read s s.pc, ram_read s (s.pc + 1), ram_read s (s.pc + 2) with
  | some IR, some operand_a, some operand_b =>
    if IR = HLT then
      .ok { s with running := false }
    else if IR = JEQ then
      if s.fl = 0b00000001 then
        match s.reg[operand_a]? with
        | some v => .ok { s with pc := v }
        | none => .error .indexError
      else .ok { s with pc := s.pc + 2 }
    else if IR = JNE then
      if s.fl ≠ 0b00000001 then
        match s.reg[operand_a]? with
        | some v => .ok { s with pc := v }
        | none => .error .indexError
      else .ok { s with pc := s.pc + 2 }
    else if IR = JMP then
      match s.reg[operand_a]? with
      | some v => .ok { s with pc := v }
      | none => .error .indexError
    else if IR = CMP then
      match alu s CMP operand_a operand_b with
      | .ok s' => .ok { s' with pc := s'.pc + 3 }
      | .error e => .error e
    else if IR = CALL then
      match pySet s.ram (s.sp - 1) (s.pc + 2) with
      | some ram' =>
        match s.reg[operand_a]? with
        | some v => .ok { s with sp := s.sp - 1, ram := ram', pc := v }
        | none => .error .indexError
      | none => .error .indexError
    else if IR = RET then
      match pyGet s.ram s.sp with
      | some popped => .ok { s with pc := popped, sp := s.sp + 1 }
      | none => .error .indexError
    else if IR = PUSH then
      match s.reg[operand_a]? with
      | some v =>
        match pySet s.ram (s.sp - 1) v with
        | some ram' =>
          .ok { s with sp := s.sp - 1, ram := ram', pc := s.pc + 2 }
        | none => .error .indexError
      | none => .error .indexError
    else if IR = POP then
      match pyGet s.ram s.sp with
      | some popped =>
        match regSet s.reg operand_a popped with
        | some reg' =>
          .ok { s with reg := reg', sp := s.sp + 1, pc := s.pc + 2 }
        | none => .error .indexError
      | none => .error .indexError
    else if IR = LDI then
      match regSet s.reg operand_a operand_b with
      | some reg' => .ok { s with reg := reg', pc := s.pc + 3 }
      | none => .error .indexError
    else if IR = MUL then
      match alu s MUL operand_a operand_b with
      | .ok s' => .ok { s' with pc := s'.pc + 3 }
      | .error e => .error e
    else if IR = ADD then
      match alu s ADD operand_a operand_b with
      | .ok s' => .ok { s' with pc := s'.pc + 3 }
      | .error e => .error e
    else if IR = PRN then
      match s.reg[operand_a]? with
      | some v => .ok { s with output := s.output ++ [v], pc := s.pc + 2 }
      | none => .error .indexError
    else
      .ok s
  | _, _, _ => .error .indexError

/-- Fuel-bounded execution of the `while running` loop: stop when `running`
is cleared (HLT) or the fuel runs out, propagate uncaught exceptions. -/
def run (fuel : Nat) (s : State) : Except Err State :=
  match fuel with
  | 0 => .ok s
  | n + 1 =>
    if s.running then
      match step s with
      | .ok s' => run n s'
      | .error e => .error e
    else .ok s

/-- State built by `CPU.__init__`: 256 zeroed RAM cells, 8 zeroed registers,
`pc = 0`, `fl = 0`, `sp = 0xF4`, nothing printed, loop about to run. -/
def initState : State :=
  { ram := List.replicate 256 0
    reg := List.replicate 8 0
    pc := 0
    fl := 0
    sp := 0xF4
    output := []
    running := true }

/-- State after `CPU.load` has written the program bytes to RAM starting at
address 0 (the rest of RAM keeps its zeroes). -/
def loadProgram (prog : List Nat) : State :=
  { initState with ram := prog ++ List.replicate (256 - prog.length) 0 }

/-- Program `LDI R0,x; LDI R1,y; ADD R0,R1; PRN R0; HLT`, as bytes. -/
def addProg (x y : Nat) : List Nat :=
  [LDI, 0, x, LDI, 1, y, ADD, 0, 1, PRN, 0, HLT]

/-- Program `LDI R0,x; LDI R1,y; MUL R0,R1; PRN R0; HLT`, as bytes. -/
def mulProg (x y : Nat) : List Nat :=
  [LDI, 0, x, LDI, 1, y, MUL, 0, 1, PRN, 0, HLT]

/-- C1: in any state whose fetched opcode matches none of the thirteen
dispatched opcodes, the loop body leaves the entire state unchanged (PC
included), so the run neither fails nor halts: it loops forever.  This
refutes the claim that such a fetch fails with InvalidOpcode and halts. -/
theorem c1_unknown_opcode_loops_forever (s : State) (IR : Nat)
    (hIR : ram_read s s.pc = some IR)
    (hA : (ram_read s (s.pc + 1)).isSome = true)
    (hB : (ram_read s (s.pc + 2)).isSome = true)
    (hrun : s.running = true)
    (hn : IR ∉ [HLT, PRN, LDI, MUL, ADD, PUSH, POP, CALL, RET, CMP, JMP, JEQ, JNE]) :
    step s = .ok s ∧ ∀ n, run n s = .ok s := by
  rw [Option.isSome_iff_exists] at hA hB
  obtain ⟨a, ha⟩ := hA
  obtain ⟨b, hb⟩ := hB
  simp only [List.mem_cons, List.not_mem_nil, or_false, not_or] at hn
  obtain ⟨e1, e2, e3, e4, e5, e6, e7, e8, e9, e10, e11, e12, e13⟩ := hn
  have hstep : step s = .ok s := by
    simp [step, hIR, ha, hb, e1, e2, e3, e4, e5, e6, e7, e8, e9, e10, e11, e12, e13]
  refine ⟨hstep, fun n => ?_⟩
  induction n with
  | zero => rfl
  | succ m ih => simp [run, hrun, hstep, ih]

/-- C1 witness: on the all-zero initial memory the fetched opcode is `0x00`,
which no branch handles; five loop iterations later the state is still the
untouched initial state. -/
theorem c1_witness : run 5 initState = .ok initState :=
  (c1_unknown_opcode_loops_forever initState 0 rfl rfl rfl rfl (by decide)).2 5

/-- C2 counterexample: with `x = y = 200` the ADD program emits `400`, not
`(200 + 200) mod 256 = 144`: register arithmetic is unbounded, nothing is
truncated to 8 bits. -/
theorem c2_counterexample :
    (run 6 (loadProgram (addProg 200 200))).toOption.map State.output = some [400]
      ∧ (200 + 200) % 256 = 144 ∧ (400 : Nat) ≠ 144 :=
  ⟨rfl, rfl, by decide⟩

/-- C2 amended: for all 8-bit `x` and `y`, the ADD program emits the
untruncated sum `x + y` (one printed value, i.e. one output line) and halts;
`ADD` stores `reg[a] + reg[b]` with no 8-bit wrap into `reg[a]`. -/
theorem c2_add_emits_untruncated_sum (x y : Nat) (hx : x ≤ 255) (hy : y ≤ 255) :
    (run 6 (loadProgram (addProg x y))).toOption.map
      (fun s => (s.output, s.running)) = some ([x + y], false) := rfl

/-- C2 witness: instance of the amended ADD statement at `x = 3`, `y = 4`. -/
theorem c2_witness :
    (run 6 (loadProgram (addProg 3 4))).toOption.map
      (fun s => (s.output, s.running)) = some ([7], false) :=
  c2_add_emits_untruncated_sum 3 4 (by decide) (by decide)

/-- C3 counterexample: with `x = y = 16` the MUL program emits `256`, not
`(16 * 16) mod 256 = 0`: the product is not truncated to 8 bits. -/
theorem c3_counterexample :
    (run 6 (loadProgram (mulProg 16 16))).toOption.map State.output = some [256]
      ∧ (16 * 16) % 256 = 0 ∧ (256 : Nat) ≠ 0 :=
  ⟨rfl, rfl, by decide⟩

/-- C3 amended: for all 8-bit `x` and `y`, the MUL program emits the
untruncated product `x * y` and halts; `MUL` stores `reg[a] * reg[b]` with no
8-bit wrap into `reg[a]`. -/
theorem c3_mul_emits_untruncated_product (x y : Nat) (hx : x ≤ 255) (hy : y ≤ 255) :
    (run 6 (loadProgram (mulProg x y))).toOption.map
      (fun s => (s.output, s.running)) = some ([x * y], false) := rfl

/-- C3 witness: instance of the amended MUL statement at `x = 8`, `y = 9`,
the spec's own end-to-end example (output `72`). -/
theorem c3_witness :
    (run 6 (loadProgram (mulProg 8 9))).toOption.map
      (fun s => (s.output, s.running)) = some ([72], false) :=
  c3_mul_emits_untruncated_product 8 9 (by decide) (by decide)

/-- C4 counterexample: address `-1` is outside `[0, 255]`, yet reading it
does not fail — it silently wraps to cell `255` (Python negative indexing)
and returns that cell's value, and writing it succeeds as well. -/
theorem c4_counterexample :
    (-1 : Int) < 0
      ∧ ram_read { initState with ram := List.replicate 255 0 ++ [99] } (-1) = some 99
      ∧ ram_write initState (-1) 7
          = some { initState with ram := List.replicate 255 0 ++ [7] } :=
  ⟨by decide, rfl, rfl⟩

/-- C4 amended: on the 256-cell RAM, a read or write at an address outside
`[-256, 255]` fails (uncaught Python `IndexError`); an address in
`[-256, -1]` is silently wrapped to the in-range cell `address + 256`; an
address in `[0, 255]` succeeds directly.  Out-of-range addresses are thus not
all rejected: negative ones within one list length are wrapped, not failed. -/
theorem c4_ram_access_bounds (s : State) (addr : Int) (v : Nat)
    (hlen : s.ram.length = 256) :
    (256 ≤ addr ∨ addr < -256 → ram_read s addr = none ∧ ram_write s addr v = none)
      ∧ (-256 ≤ addr → addr < 0 →
          ram_read s addr = ram_read s (addr + 256)
            ∧ ram_write s addr v = ram_write s (addr + 256) v
            ∧ ram_read s addr ≠ none)
      ∧ (0 ≤ addr → addr < 256 →
          ram_read s addr ≠ none ∧ ram_write s addr v ≠ none) := by
  refine ⟨fun h => ⟨?_, ?_⟩, fun h0 h1 => ⟨?_, ?_, ?_⟩, fun h0 h1 => ⟨?_, ?_⟩⟩ <;>
    · simp only [ram_read, ram_write, pyGet, pySet, hlen]
      split_ifs <;>
        first
          | rfl
          | (exact List.getElem?_eq_none (by rw [hlen]; omega))
          | (exfalso; omega)
          | (rw [Ne, List.getElem?_eq_none_iff, hlen]; omega)
          | simp

/-- C4 witness: at address `300` both read and write fail; at address `-5`
the read silently lands on cell `251`. -/
theorem c4_witness :
    (ram_read initState 300 = none ∧ ram_write initState 300 7 = none)
      ∧ ram_read initState (-5) = ram_read initState (-5 + 256) :=
  ⟨(c4_ram_access_bounds initState 300 7 rfl).1 (Or.inl (by decide)),
   ((c4_ram_access_bounds initState (-5) 7 rfl).2.1 (by decide) (by decide)).1⟩

/-- C5: register subscripts are operand bytes (non-negative); any selector
outside `[0, 7]` makes the register read / register write / ALU call fail
with an `IndexError` that aborts the run, as shown both at the accessor
level and for a whole `LDI` execution step. -/
theorem c5_register_index_out_of_range (s : State) (i b v : Nat)
    (hlen : s.reg.length = 8) (h8 : 8 ≤ i) :
    s.reg[i]? = none
      ∧ regSet s.reg i v = none
      ∧ alu s ADD i b = .error .indexError
      ∧ alu s ADD b i = .error .indexError
      ∧ alu s MUL i b = .error .indexError
      ∧ alu s MUL b i = .error .indexError
      ∧ alu s CMP i b = .error .indexError
      ∧ alu s CMP b i = .error .indexError
      ∧ (ram_read s s.pc = some LDI → ram_read s (s.pc + 1) = some i →
          (ram_read s (s.pc + 2)).isSome = true → step s = .error Err.indexError) := by
  have hg : s.reg[i]? = none := by
    rw [List.getElem?_eq_none_iff, hlen]; omega
  have hs : regSet s.reg i v = none := by
    simp only [regSet, hlen]
    rw [if_neg (by omega)]
  refine ⟨hg, hs, ?_, ?_, ?_, ?_, ?_, ?_, ?_⟩
  · rcases hb : s.reg[b]? with _ | w <;> simp [alu, ADD, MUL, CMP, hg, hb]
  · rcases hb : s.reg[b]? with _ | w <;> simp [alu, ADD, MUL, CMP, hg, hb]
  · rcases hb : s.reg[b]? with _ | w <;> simp [alu, ADD, MUL, CMP, hg, hb]
  · rcases hb : s.reg[b]? with _ | w <;> simp [alu, ADD, MUL, CMP, hg, hb]
  · rcases hb : s.reg[b]? with _ | w <;> simp [alu, ADD, MUL, CMP, hg, hb]
  · rcases hb : s.reg[b]? with _ | w <;> simp [alu, ADD, MUL, CMP, hg, hb]
  · intro hIR hA hB
    rw [Option.isSome_iff_exists] at hB
    obtain ⟨b', hb'⟩ := hB
    have hno : regSet s.reg i b' = none := by
      simp only [regSet, hlen]
      rw [if_neg (by omega)]
    simp [step, hIR, hA, hb', hno,
      HLT, PRN, LDI, MUL, ADD, PUSH, POP, CALL, RET, CMP, JMP, JEQ, JNE]

/-- C5 witness: a program whose `LDI` names register 8: the register file
read is `none` and the execution step aborts with `IndexError`. -/
theorem c5_witness :
    (loadProgram [LDI, 8, 5]).reg[8]? = none
      ∧ step (loadProgram [LDI, 8, 5]) = .error Err.indexError := by
  have h := c5_register_index_out_of_range (loadProgram [LDI, 8, 5]) 8 0 0 rfl (by decide)
  exact ⟨h.1, h.2.2.2.2.2.2.2.2 rfl rfl rfl⟩

/-- Helper: exact effect of `CPU.alu(CMP, a, b)` on valid registers — the
flags register is fully replaced by `1`, `4`, or `2` according to the
three-way comparison, and nothing else in the state changes. -/
lemma alu_cmp_spec (s : State) (a b va vb : Nat)
    (ha : s.reg[a]? = some va) (hb : s.reg[b]? = some vb) :
    alu s CMP a b
      = .ok { s with fl := if va = vb then 1 else if va < vb then 4 else 2 } := by
  have h1 : CMP ≠ ADD := by decide
  have h2 : CMP ≠ MUL := by decide
  simp only [alu, if_neg h1, if_neg h2, if_pos rfl, ha, hb]
  split_ifs with g1 g2 g3 <;> first | rfl | omega | (exfalso; omega)

/-- C6: CMP on two valid registers replaces the flags register with exactly
the Equal value (1) when the values are equal, else the Less-than value (4)
when the first is smaller, else the Greater-than value (2).  The new flags
value is independent of the previous one (full replace, so a later compare
overwrites an earlier one), exactly one flag bit is set afterwards, and no
other component of the state changes. -/
theorem c6_cmp_replaces_flags (s : State) (a b va vb : Nat)
    (ha : s.reg[a]? = some va) (hb : s.reg[b]? = some vb) :
    alu s CMP a b
      = .ok { s with fl := if va = vb then 1 else if va < vb then 4 else 2 }
      ∧ ∀ s', alu s CMP a b = .ok s' →
          (s'.fl = 1 ∨ s'.fl = 4 ∨ s'.fl = 2)
            ∧ s'.ram = s.ram ∧ s'.reg = s.reg ∧ s'.pc = s.pc ∧ s'.sp = s.sp := by
  refine ⟨alu_cmp_spec s a b va vb ha hb, fun s' h => ?_⟩
  rw [alu_cmp_spec s a b va vb ha hb, Except.ok.injEq] at h
  subst h
  refine ⟨?_, rfl, rfl, rfl, rfl⟩
  split_ifs <;> simp

/-- C6 witness: comparing register values 5 and 7 yields flags exactly 4
(Less-than) with nothing else changed. -/
theorem c6_witness :
    alu { initState with reg := [5, 7, 0, 0, 0, 0, 0, 0] } CMP 0 1
      = .ok { initState with reg := [5, 7, 0, 0, 0, 0, 0, 0], fl := 4 } := by
  have h := (c6_cmp_replaces_flags
    { initState with reg := [5, 7, 0, 0, 0, 0, 0, 0] } 0 1 5 7 rfl rfl).1
  simpa using h

/-- C7: with a register operand `a` holding `v`, a JEQ step sets PC to `v`
when the flags register equals the Equal value and otherwise advances PC
by 2; a JNE step sets PC to `v` when the flags register differs from the
Equal value and otherwise advances PC by 2; and after any successful CMP the
flags register equals the Equal value exactly when the compared register
values were equal — so CMP-then-JEQ branches iff the values were equal. -/
theorem c7_jeq_jne_branch (s : State) (a v : Nat)
    (hA : ram_read s (s.pc + 1) = some a)
    (hB : (ram_read s (s.pc + 2)).isSome = true)
    (hreg : s.reg[a]? = some v) :
    (ram_read s s.pc = some JEQ →
        step s = .ok { s with pc := if s.fl = 1 then v else s.pc + 2 })
      ∧ (ram_read s s.pc = some JNE →
        step s = .ok { s with pc := if s.fl ≠ 1 then v else s.pc + 2 })
      ∧ (∀ c d x y s', s.reg[c]? = some x → s.reg[d]? = some y →
          alu s CMP c d = .ok s' → (s'.fl = 1 ↔ x = y)) := by
  rw [Option.isSome_iff_exists] at hB
  obtain ⟨b, hb⟩ := hB
  refine ⟨fun hIR => ?_, fun hIR => ?_, fun c d x y s' hx hy h => ?_⟩
  · by_cases hfl : s.fl = 1 <;>
      simp [step, hIR, hA, hb, hreg, hfl, HLT, JEQ]
  · by_cases hfl : s.fl = 1 <;>
      simp [step, hIR, hA, hb, hreg, hfl, HLT, JEQ, JNE]
  · rw [alu_cmp_spec s c d x y hx hy, Except.ok.injEq] at h
    subst h
    split_ifs with g1 g2 <;> simp [g1] <;> omega

/-- C7 witness: with flags clear, a JEQ at PC 0 falls through to PC 2. -/
theorem c7_witness :
    step (loadProgram [JEQ, 0, 0]) = .ok { loadProgram [JEQ, 0, 0] with pc := 2 } := by
  have h := (c7_jeq_jne_branch (loadProgram [JEQ, 0, 0]) 0 0 rfl rfl rfl).1 rfl
  simpa using h

/-- Helper: a RAM access at a `Nat` address is a plain list lookup. -/
lemma pyGet_natCast (l : List Nat) (n : Nat) : pyGet l (n : Int) = l[n]? := by
  simp [pyGet, Int.natCast_nonneg, Int.toNat_natCast]

/-- Helper: `ram_read` at a `Nat` address is a plain list lookup. -/
lemma ram_read_natCast (s : State) (n : Nat) : ram_read s (n : Int) = s.ram[n]? :=
  pyGet_natCast s.ram n

/-- Helper: exact effect of one PUSH step: SP decremented, the pushed value
written at the new SP, PC advanced by 2. -/
lemma step_push (s : State) (a v : Nat)
    (hIR : ram_read s s.pc = some PUSH)
    (hA : ram_read s (s.pc + 1) = some a)
    (hB : (ram_read s (s.pc + 2)).isSome = true)
    (hreg : s.reg[a]? = some v)
    (h0 : 0 ≤ s.sp - 1) (h1 : s.sp - 1 < (s.ram.length : Int)) :
    step s = .ok { s with
      sp := s.sp - 1
      ram := s.ram.set (s.sp - 1).toNat v
      pc := s.pc + 2 } := by
  rw [Option.isSome_iff_exists] at hB
  obtain ⟨b, hb⟩ := hB
  have hset : pySet s.ram (s.sp - 1) v = some (s.ram.set (s.sp - 1).toNat v) := by
    simp only [pySet, if_pos h0]
    rw [if_pos (by omega)]
  simp [step, hIR, hA, hb, hreg, hset,
    HLT, PRN, LDI, MUL, ADD, PUSH, POP, CALL, RET, CMP, JMP, JEQ, JNE]

/-- Helper: exact effect of one POP step: the value at SP is copied into the
named register, SP incremented, PC advanced by 2. -/
lemma step_pop (s : State) (a w : Nat)
    (hIR : ram_read s s.pc = some POP)
    (hA : ram_read s (s.pc + 1) = some a)
    (hB : (ram_read s (s.pc + 2)).isSome = true)
    (hmem : pyGet s.ram s.sp = some w)
    (ha : a < s.reg.length) :
    step s = .ok { s with
      reg := s.reg.set a w
      sp := s.sp + 1
      pc := s.pc + 2 } := by
  rw [Option.isSome_iff_exists] at hB
  obtain ⟨b, hb⟩ := hB
  have hrs : regSet s.reg a w = some (s.reg.set a w) := by
    simp [regSet, ha]
  simp [step, hIR, hA, hb, hmem, hrs,
    HLT, PRN, LDI, MUL, ADD, PUSH, POP, CALL, RET, CMP, JMP, JEQ, JNE]

/-- Helper: exact effect of one CALL step: SP decremented, the return
address `PC + 2` stored at the new SP, PC set to the register's value. -/
lemma step_call (s : State) (a t : Nat)
    (hIR : ram_read s s.pc = some CALL)
    (hA : ram_read s (s.pc + 1) = some a)
    (hB : (ram_read s (s.pc + 2)).isSome = true)
    (hreg : s.reg[a]? = some t)
    (h0 : 0 ≤ s.sp - 1) (h1 : s.sp - 1 < (s.ram.length : Int)) :
    step s = .ok { s with
      sp := s.sp - 1
      ram := s.ram.set (s.sp - 1).toNat (s.pc + 2)
      pc := t } := by
  rw [Option.isSome_iff_exists] at hB
  obtain ⟨b, hb⟩ := hB
  have hset : pySet s.ram (s.sp - 1) (s.pc + 2)
      = some (s.ram.set (s.sp - 1).toNat (s.pc + 2)) := by
    simp only [pySet, if_pos h0]
    rw [if_pos (by omega)]
  simp [step, hIR, hA, hb, hreg, hset,
    HLT, PRN, LDI, MUL, ADD, PUSH, POP, CALL, RET, CMP, JMP, JEQ, JNE]

/-- Helper: exact effect of one RET step: PC set to the value at SP, SP
incremented. -/
lemma step_ret (s : State) (r : Nat)
    (hIR : ram_read s s.pc = some RET)
    (hA : (ram_read s (s.pc + 1)).isSome = true)
    (hB : (ram_read s (s.pc + 2)).isSome = true)
    (hmem : pyGet s.ram s.sp = some r) :
    step s = .ok { s with pc := r, sp := s.sp + 1 } := by
  rw [Option.isSome_iff_exists] at hA hB
  obtain ⟨x, hx⟩ := hA
  obtain ⟨y, hy⟩ := hB
  simp [step, hIR, hx, hy, hmem,
    HLT, PRN, LDI, MUL, ADD, PUSH, POP, CALL, RET, CMP, JMP, JEQ, JNE]

/-- Helper: a successful ALU call never changes SP, PC, RAM, output, or the
running flag, and changes the flags register only for the CMP op. -/
lemma alu_frame (s : State) (op a b : Nat) (s' : State)
    (h : alu s op a b = .ok s') :
    s'.sp = s.sp ∧ s'.pc = s.pc ∧ s'.ram = s.ram ∧ s'.output = s.output
      ∧ s'.running = s.running ∧ (op ≠ CMP → s'.fl = s.fl) := by
  unfold alu at h
  split_ifs at h with h1 h2 h3
  · split at h
    · injection h with h
      subst h
      simp
    · exact absurd h (by simp)
  · split at h
    · injection h with h
      subst h
      simp
    · exact absurd h (by simp)
  · split at h
    · split_ifs at h <;>
        first
          | (injection h with h; subst h;
             exact ⟨rfl, rfl, rfl, rfl, rfl, fun hop => absurd h3 hop⟩)
    · exact absurd h (by simp)

/-- Per-instruction effect on SP: PUSH and CALL decrement it by one, POP and
RET increment it by one, everything else (unknown opcodes included) leaves
it alone. -/
def spDelta (op : Nat) : Int :=
  if op = PUSH ∨ op = CALL then -1
  else if op = POP ∨ op = RET then 1
  else 0

/-- Fuel-bounded execution that also records the opcode byte fetched at
each executed loop iteration; `none` when an iteration raises. -/
def runOps : Nat → State → Option (State × List Nat)
  | 0, s => some (s, [])
  | n + 1, s =>
    if s.running = true then
      match ram_read s s.pc, step s with
      | some op, .ok s' =>
        match runOps n s' with
        | some (s'', ops) => some (s'', op :: ops)
        | none => none
      | _, _ => none
    else some (s, [])

/-- Helper: one successful loop iteration moves SP by exactly `spDelta` of
the fetched opcode, and leaves the flags register alone unless the opcode
is CMP. -/
lemma step_effects (s s' : State) (op : Nat)
    (hIR : ram_read s s.pc = some op)
    (h : step s = .ok s') :
    s'.sp = s.sp + spDelta op ∧ (op ≠ CMP → s'.fl = s.fl) := by
  rcases hA : ram_read s (s.pc + 1) with _ | a <;>
    rcases hB : ram_read s (s.pc + 2) with _ | b <;>
    simp only [step, hIR, hA, hB] at h <;>
    try exact Except.noConfusion h
  by_cases e1 : op = HLT
  · rw [if_pos e1] at h
    have hz : spDelta op = 0 := by rw [e1]; decide
    repeat' split at h
    all_goals
      first
        | exact Except.noConfusion h
        | (injection h with h; subst h;
           refine ⟨?_, fun _ => rfl⟩;
           simp only [hz];
           try simp;
           try omega)
  rw [if_neg e1] at h
  by_cases e2 : op = JEQ
  · rw [if_pos e2] at h
    have hz : spDelta op = 0 := by rw [e2]; decide
    repeat' split at h
    all_goals
      first
        | exact Except.noConfusion h
        | (injection h with h; subst h;
           refine ⟨?_, fun _ => rfl⟩;
           simp only [hz];
           try simp;
           try omega)
  rw [if_neg e2] at h
  by_cases e3 : op = JNE
  · rw [if_pos e3] at h
    have hz : spDelta op = 0 := by rw [e3]; decide
    repeat' split at h
    all_goals
      first
        | exact Except.noConfusion h
        | (injection h with h; subst h;
           refine ⟨?_, fun _ => rfl⟩;
           simp only [hz];
           try simp;
           try omega)
  rw [if_neg e3] at h
  by_cases e4 : op = JMP
  · rw [if_pos e4] at h
    have hz : spDelta op = 0 := by rw [e4]; decide
    repeat' split at h
    all_goals
      first
        | exact Except.noConfusion h
        | (injection h with h; subst h;
           refine ⟨?_, fun _ => rfl⟩;
           simp only [hz];
           try simp;
           try omega)
  rw [if_neg e4] at h
  by_cases e5 : op = CMP
  · rw [if_pos e5] at h
    have hz : spDelta op = 0 := by rw [e5]; decide
    split at h
    · injection h with h
      subst h
      rename_i s1 heq
      obtain ⟨hsp, -, -, -, -, -⟩ := alu_frame s CMP a b s1 heq
      exact ⟨by simp only [hz, hsp]; simp, fun hop => absurd e5 hop⟩
    · exact Except.noConfusion h
  rw [if_neg e5] at h
  by_cases e6 : op = CALL
  · rw [if_pos e6] at h
    have hz : spDelta op = -1 := by rw [e6]; decide
    repeat' split at h
    all_goals
      first
        | exact Except.noConfusion h
        | (injection h with h; subst h;
           refine ⟨?_, fun _ => rfl⟩;
           simp only [hz];
           try simp;
           try omega)
  rw [if_neg e6] at h
  by_cases e7 : op = RET
  · rw [if_pos e7] at h
    have hz : spDelta op = 1 := by rw [e7]; decide
    repeat' split at h
    all_goals
      first
        | exact Except.noConfusion h
        | (injection h with h; subst h;
           refine ⟨?_, fun _ => rfl⟩;
           simp only [hz];
           try simp;
           try omega)
  rw [if_neg e7] at h
  by_cases e8 : op = PUSH
  · rw [if_pos e8] at h
    have hz : spDelta op = -1 := by rw [e8]; decide
    repeat' split at h
    all_goals
      first
        | exact Except.noConfusion h
        | (injection h with h; subst h;
           refine ⟨?_, fun _ => rfl⟩;
           simp only [hz];
           try simp;
           try omega)
  rw [if_neg e8] at h
  by_cases e9 : op = POP
  · rw [if_pos e9] at h
    have hz : spDelta op = 1 := by rw [e9]; decide
    repeat' split at h
    all_goals
      first
        | exact Except.noConfusion h
        | (injection h with h; subst h;
           refine ⟨?_, fun _ => rfl⟩;
           simp only [hz];
           try simp;
           try omega)
  rw [if_neg e9] at h
  by_cases e10 : op = LDI
  · rw [if_pos e10] at h
    have hz : spDelta op = 0 := by rw [e10]; decide
    repeat' split at h
    all_goals
      first
        | exact Except.noConfusion h
        | (injection h with h; subst h;
           refine ⟨?_, fun _ => rfl⟩;
           simp only [hz];
           try simp;
           try omega)
  rw [if_neg e10] at h
  by_cases e11 : op = MUL
  · rw [if_pos e11] at h
    have hz : spDelta op = 0 := by rw [e11]; decide
    split at h
    · injection h with h
      subst h
      rename_i s1 heq
      obtain ⟨hsp, -, -, -, -, hfl⟩ := alu_frame s MUL a b s1 heq
      exact ⟨by simp only [hz, hsp]; simp, fun _ => hfl (by decide : MUL ≠ CMP)⟩
    · exact Except.noConfusion h
  rw [if_neg e11] at h
  by_cases e12 : op = ADD
  · rw [if_pos e12] at h
    have hz : spDelta op = 0 := by rw [e12]; decide
    split at h
    · injection h with h
      subst h
      rename_i s1 heq
      obtain ⟨hsp, -, -, -, -, hfl⟩ := alu_frame s ADD a b s1 heq
      exact ⟨by simp only [hz, hsp]; simp, fun _ => hfl (by decide : ADD ≠ CMP)⟩
    · exact Except.noConfusion h
  rw [if_neg e12] at h
  by_cases e13 : op = PRN
  · rw [if_pos e13] at h
    have hz : spDelta op = 0 := by rw [e13]; decide
    repeat' split at h
    all_goals
      first
        | exact Except.noConfusion h
        | (injection h with h; subst h;
           refine ⟨?_, fun _ => rfl⟩;
           simp only [hz];
           try simp;
           try omega)
  rw [if_neg e13] at h
  injection h with h
  subst h
  exact ⟨by simp [spDelta, e6, e7, e8, e9], fun _ => rfl⟩

/-- Helper: over any recorded execution, SP moves by the sum of the
per-opcode deltas, and the flags register is untouched if no CMP was
executed. -/
lemma runOps_spec (n : Nat) : ∀ s s' ops, runOps n s = some (s', ops) →
    s'.sp = s.sp + (ops.map spDelta).sum ∧ (CMP ∉ ops → s'.fl = s.fl) := by
  induction n with
  | zero =>
    intro s s' ops h
    simp only [runOps, Option.some.injEq, Prod.mk.injEq] at h
    obtain ⟨rfl, rfl⟩ := h
    simp
  | succ m ih =>
    intro s s' ops h
    by_cases hr : s.running = true
    · rcases hIR : ram_read s s.pc with _ | op <;>
        rcases hst : step s with e | s1 <;>
        simp only [runOps, if_pos hr, hIR, hst] at h <;>
        try exact Option.noConfusion h
      rcases hro : runOps m s1 with _ | p <;>
        simp only [hro] at h
      · exact Option.noConfusion h
      obtain ⟨s2, ops2⟩ := p
      simp only [Option.some.injEq, Prod.mk.injEq] at h
      obtain ⟨rfl, rfl⟩ := h
      have hse := step_effects s s1 op hIR hst
      have hind := ih s1 s2 ops2 hro
      constructor
      · simp only [List.map_cons, List.sum_cons]
        omega
      · intro hcmp
        rw [List.mem_cons, not_or] at hcmp
        exact (hind.2 hcmp.2).trans (hse.2 fun hop => hcmp.1 hop.symm)
    · simp only [runOps, if_neg hr, Option.some.injEq, Prod.mk.injEq] at h
      obtain ⟨rfl, rfl⟩ := h
      simp

/-- Helper: the summed SP delta of a trace is the number of POP/RET
executions minus the number of PUSH/CALL executions. -/
lemma sum_map_spDelta (ops : List Nat) :
    (ops.map spDelta).sum
      = ((ops.countP fun op => decide (op = POP ∨ op = RET) : Nat) : Int)
        - ((ops.countP fun op => decide (op = PUSH ∨ op = CALL) : Nat) : Int) := by
  induction ops with
  | nil => simp
  | cons op rest ih =>
    simp only [List.map_cons, List.sum_cons, List.countP_cons, ih]
    by_cases h1 : op = PUSH ∨ op = CALL
    · have h2 : ¬(op = POP ∨ op = RET) := by
        rcases h1 with rfl | rfl <;> decide
      have hd : spDelta op = -1 := by simp [spDelta, h1]
      rw [hd]
      simp [h1, h2]
      try push_cast
      try omega
    · by_cases h2 : op = POP ∨ op = RET
      · have hd : spDelta op = 1 := by simp [spDelta, h1, h2]
        rw [hd]
        simp [h1, h2]
        try push_cast
        try omega
      · have hd : spDelta op = 0 := by simp [spDelta, h1, h2]
        rw [hd]
        simp [h1, h2]
        try push_cast
        try omega

/-- C8: PUSH of a register value `v` followed immediately by POP into
register `b` leaves `b` holding `v`, restores SP to its pre-PUSH value, and
lands PC after the POP (the non-clobbering hypotheses keep the pushed byte
away from the two instructions being fetched); and over any recorded
execution in which the number of PUSH/CALL instructions equals the number of
POP/RET instructions, SP ends exactly where it started. -/
theorem c8_push_pop_roundtrip_and_balanced_sp :
    (∀ s a b v,
      s.running = true →
      ram_read s s.pc = some PUSH →
      ram_read s (s.pc + 1) = some a →
      ram_read s (s.pc + 2) = some POP →
      ram_read s (s.pc + 3) = some b →
      (ram_read s (s.pc + 4)).isSome = true →
      s.reg[a]? = some v →
      b < s.reg.length →
      0 ≤ s.sp - 1 → s.sp - 1 < (s.ram.length : Int) →
      s.sp - 1 ≠ ((s.pc : Int) + 2) → s.sp - 1 ≠ ((s.pc : Int) + 3) →
      s.sp - 1 ≠ ((s.pc : Int) + 4) →
      (run 2 s).toOption.map (fun t => (t.reg[b]?, t.sp, t.pc))
        = some (some v, s.sp, s.pc + 4))
    ∧ (∀ n s s' ops, runOps n s = some (s', ops) →
        (ops.countP fun op => decide (op = PUSH ∨ op = CALL))
          = (ops.countP fun op => decide (op = POP ∨ op = RET)) →
        s'.sp = s.sp) := by
  constructor
  · intro s a b v hrun hIR hA hPOP hb3 hsome hreg hblen h0 h1 hn2 hn3 hn4
    have hstep1 := step_push s a v hIR hA (by rw [hPOP]; rfl) hreg h0 h1
    set s1 : State := { s with
      sp := s.sp - 1
      ram := s.ram.set (s.sp - 1).toNat v
      pc := s.pc + 2 }
    have hne2 : (s.sp - 1).toNat ≠ s.pc + 2 := by omega
    have hne3 : (s.sp - 1).toNat ≠ s.pc + 3 := by omega
    have hne4 : (s.sp - 1).toNat ≠ s.pc + 4 := by omega
    have hb3' : s.ram[s.pc + 3]? = some b := by
      rw [show ((s.pc : Int) + 3) = ((s.pc + 3 : Nat) : Int) by push_cast; ring,
        ram_read_natCast] at hb3
      exact hb3
    have hPOP' : s.ram[s.pc + 2]? = some POP := by
      rw [show ((s.pc : Int) + 2) = ((s.pc + 2 : Nat) : Int) by push_cast; ring,
        ram_read_natCast] at hPOP
      exact hPOP
    have hsome' : (s.ram[s.pc + 4]?).isSome = true := by
      rw [show ((s.pc : Int) + 4) = ((s.pc + 4 : Nat) : Int) by push_cast; ring,
        ram_read_natCast] at hsome
      exact hsome
    have hIR1 : ram_read s1 s1.pc = some POP := by
      show ram_read s1 ((s.pc + 2 : Nat) : Int) = some POP
      rw [ram_read_natCast]
      show (s.ram.set (s.sp - 1).toNat v)[s.pc + 2]? = some POP
      rw [List.getElem?_set_ne hne2]
      exact hPOP'
    have hA1 : ram_read s1 ((s1.pc : Int) + 1) = some b := by
      show ram_read s1 (((s.pc + 2 : Nat) : Int) + 1) = some b
      rw [show (((s.pc + 2 : Nat) : Int) + 1) = ((s.pc + 3 : Nat) : Int) by
        push_cast; ring, ram_read_natCast]
      show (s.ram.set (s.sp - 1).toNat v)[s.pc + 3]? = some b
      rw [List.getElem?_set_ne hne3]
      exact hb3'
    have hB1 : (ram_read s1 ((s1.pc : Int) + 2)).isSome = true := by
      show (ram_read s1 (((s.pc + 2 : Nat) : Int) + 2)).isSome = true
      rw [show (((s.pc + 2 : Nat) : Int) + 2) = ((s.pc + 4 : Nat) : Int) by
        push_cast; ring, ram_read_natCast]
      show ((s.ram.set (s.sp - 1).toNat v)[s.pc + 4]?).isSome = true
      rw [List.getElem?_set_ne hne4]
      exact hsome'
    have hmem1 : pyGet s1.ram s1.sp = some v := by
      show pyGet (s.ram.set (s.sp - 1).toNat v) (s.sp - 1) = some v
      simp only [pyGet, if_pos h0]
      exact List.getElem?_set_eq_of_lt v (by omega)
    have hblen1 : b < s1.reg.length := hblen
    have hstep2 := step_pop s1 b v hIR1 hA1 hB1 hmem1 hblen1
    have hr1 : s1.running = true := hrun
    have hstep2' : step s1 = .ok { s with
        ram := s.ram.set (s.sp - 1).toNat v
        reg := s.reg.set b v
        sp := s.sp - 1 + 1
        pc := s.pc + 2 + 2 } := hstep2
    have hrun2 : run 2 s = .ok { s with
        ram := s.ram.set (s.sp - 1).toNat v
        reg := s.reg.set b v
        sp := s.sp - 1 + 1
        pc := s.pc + 2 + 2 } := by
      simp only [run, hrun, eq_self_iff_true, if_true, hstep1, hstep2', hr1]
    rw [hrun2]
    simp only [Except.toOption, Option.map, Option.some.injEq, Prod.mk.injEq]
    refine ⟨?_, ?_, ?_⟩
    · exact List.getElem?_set_eq_of_lt v hblen
    · first | trivial | omega
    · first | trivial | omega
  · intro n s s' ops h hbal
    have h1 := (runOps_spec n s s' ops h).1
    rw [sum_map_spDelta] at h1
    omega

/-- Demonstration state for C8: `PUSH R0; POP R1; HLT` with `R0 = 42`. -/
def pushPopDemo : State :=
  { loadProgram [PUSH, 0, POP, 1, HLT] with reg := [42, 0, 0, 0, 0, 0, 0, 0] }

/-- Final state of the C8 demonstration run. -/
def pushPopDemoFinal : State :=
  { pushPopDemo with
      ram := pushPopDemo.ram.set 243 42
      reg := [42, 42, 0, 0, 0, 0, 0, 0]
      pc := 4
      sp := 244
      running := false }

/-- C8 witness: the concrete run `PUSH R0; POP R1` with `R0 = 42` delivers
42 into `R1` with SP back at `0xF4`, and a three-instruction recorded trace
with one PUSH and one POP ends with SP unchanged. -/
theorem c8_witness :
    (run 2 pushPopDemo).toOption.map (fun t => (t.reg[1]?, t.sp, t.pc))
      = some (some 42, pushPopDemo.sp, pushPopDemo.pc + 4)
    ∧ pushPopDemoFinal.sp = pushPopDemo.sp := by
  constructor
  · exact c8_push_pop_roundtrip_and_balanced_sp.1 pushPopDemo 0 1 42 rfl rfl rfl
      rfl rfl rfl rfl (by decide) (by decide) (by decide) (by decide) (by decide)
      (by decide)
  · have hro : runOps 3 pushPopDemo = some (pushPopDemoFinal, [PUSH, POP, HLT]) := by
      decide
    exact c8_push_pop_roundtrip_and_balanced_sp.2 3 pushPopDemo pushPopDemoFinal
      [PUSH, POP, HLT] hro (by decide)

/-- C9: a CALL step decrements SP, stores the return address `PC + 2` at the
new SP, and jumps to the register's value; a RET step pops the value at SP
into PC and increments SP; consequently, from any later state that has
returned to the post-CALL SP with the return cell still intact, executing
RET resumes at the instruction right after the CALL (`p + 2`) with SP
restored to its pre-CALL value. -/
theorem c9_call_ret_resumes (s : State) (a t : Nat)
    (hIR : ram_read s s.pc = some CALL)
    (hA : ram_read s (s.pc + 1) = some a)
    (hB : (ram_read s (s.pc + 2)).isSome = true)
    (hreg : s.reg[a]? = some t)
    (h0 : 0 ≤ s.sp - 1) (h1 : s.sp - 1 < (s.ram.length : Int)) :
    step s = .ok { s with
      sp := s.sp - 1
      ram := s.ram.set (s.sp - 1).toNat (s.pc + 2)
      pc := t }
    ∧ (∀ u r, ram_read u u.pc = some RET →
        (ram_read u (u.pc + 1)).isSome = true →
        (ram_read u (u.pc + 2)).isSome = true →
        pyGet u.ram u.sp = some r →
        step u = .ok { u with pc := r, sp := u.sp + 1 })
    ∧ (∀ u, ram_read u u.pc = some RET →
        (ram_read u (u.pc + 1)).isSome = true →
        (ram_read u (u.pc + 2)).isSome = true →
        u.sp = s.sp - 1 → pyGet u.ram u.sp = some (s.pc + 2) →
        step u = .ok { u with pc := s.pc + 2, sp := s.sp }) := by
  refine ⟨step_call s a t hIR hA hB hreg h0 h1,
    fun u r h1' h2' h3' h4' => step_ret u r h1' h2' h3' h4',
    fun u h1' h2' h3' hsp hmem => ?_⟩
  have h := step_ret u (s.pc + 2) h1' h2' h3' hmem
  rw [show u.sp + 1 = s.sp from by omega] at h
  exact h

/-- Demonstration state for C9: `CALL R0; HLT; RET` with `R0 = 3`. -/
def callDemo : State :=
  { loadProgram [CALL, 0, HLT, RET] with reg := [3, 0, 0, 0, 0, 0, 0, 0] }

/-- State of the C9 demonstration right after the CALL. -/
def callDemoAfter : State :=
  { callDemo with
      sp := callDemo.sp - 1
      ram := callDemo.ram.set (callDemo.sp - 1).toNat (callDemo.pc + 2)
      pc := 3 }

/-- C9 witness: on the concrete program `CALL R0; HLT; RET` (subroutine at
address 3), the CALL pushes return address 2 and jumps to 3, and the RET
resumes at address 2 — the instruction right after the CALL — with SP back
at `0xF4`. -/
theorem c9_witness :
    step callDemo = .ok callDemoAfter
    ∧ step callDemoAfter
        = .ok { callDemoAfter with pc := callDemo.pc + 2, sp := callDemo.sp } := by
  have h := c9_call_ret_resumes callDemo 0 3 rfl rfl rfl rfl (by decide) (by decide)
  exact ⟨h.1, h.2.2 callDemoAfter rfl rfl rfl rfl rfl⟩

/-- C10: the flags register starts at 0, stays at its old value across any
recorded execution that contains no CMP, and with flags 0 a JNE always takes
the jump (`PC = reg[a]`) while a JEQ always falls through (`PC += 2`). -/
theorem c10_flags_zero_without_cmp :
    initState.fl = 0
    ∧ (∀ n s s' ops, runOps n s = some (s', ops) → CMP ∉ ops → s'.fl = s.fl)
    ∧ (∀ s a v, s.fl = 0 → ram_read s s.pc = some JNE →
        ram_read s (s.pc + 1) = some a → (ram_read s (s.pc + 2)).isSome = true →
        s.reg[a]? = some v → step s = .ok { s with pc := v })
    ∧ (∀ s a, s.fl = 0 → ram_read s s.pc = some JEQ →
        ram_read s (s.pc + 1) = some a → (ram_read s (s.pc + 2)).isSome = true →
        step s = .ok { s with pc := s.pc + 2 }) := by
  refine ⟨rfl, fun n s s' ops h hcmp => (runOps_spec n s s' ops h).2 hcmp,
    fun s a v hfl hIR hA hB hreg => ?_, fun s a hfl hIR hA hB => ?_⟩
  · rw [Option.isSome_iff_exists] at hB
    obtain ⟨b, hb⟩ := hB
    simp [step, hIR, hA, hb, hreg, hfl, HLT, JEQ, JNE]
  · rw [Option.isSome_iff_exists] at hB
    obtain ⟨b, hb⟩ := hB
    simp [step, hIR, hA, hb, hfl, HLT, JEQ]

/-- Demonstration state for C10: `JNE R0` with `R0 = 9` and flags still 0. -/
def jneDemo : State :=
  { loadProgram [JNE, 0, 0] with reg := [9, 0, 0, 0, 0, 0, 0, 0] }

/-- C10 witness: with the initial flags value 0 and no CMP executed, a JNE
jumps to the register's address 9, and a JEQ falls through to PC 2. -/
theorem c10_witness :
    step jneDemo = .ok { jneDemo with pc := 9 }
    ∧ step (loadProgram [JEQ, 0, 0, HLT])
        = .ok { loadProgram [JEQ, 0, 0, HLT] with pc := 2 } := by
  have h := c10_flags_zero_without_cmp
  exact ⟨h.2.2.1 jneDemo 0 9 rfl rfl rfl rfl rfl,
    h.2.2.2 (loadProgram [JEQ, 0, 0, HLT]) 0 rfl rfl rfl rfl⟩

end CPU
